import Mathlib

/-!
Verification development for the elektron power-aware Mesos scheduler.

The definitions below are a shallow embedding of the Go sources:
* `schedulers/binpacksortedwatts.go` — `BinPackSortedWatts.ResourceOffers`
* `schedulers/bpswClassMapWatts.go` — `BPSWClassMapWatts.ResourceOffers`
* `schedulers/MaxGreedyMins.go` — `MaxGreedyMins.ConsumeOffers` / `CheckFit` / `takeOffer`
* `schedulers/proactiveclusterwidecappingranked.go` — `ResourceOffers` / `StatusUpdate`
* `schedulers/schedPolicy.go` — `baseSchedPolicyState.nextPolicy`
* `rapl-daemon` — `capNode`, `powercapEndpoint`
* `utilities/mesosUtils/mesosUtils.go` — the refusal filters

Go `float64` resource quantities are modelled as exact rationals (`ℚ`); Go's
`int` instance counters are modelled as `ℕ` (the schedulers only decrement
positive counters, and a counter reaching `0` removes the task, matching the
`<= 0` removal checks in the source).  Go string functions
(`strings.HasPrefix`, `strings.Split`) are modelled over the character lists
of the strings.  The mid-iteration slice mutation in the Go `range` loops is
modelled as structural recursion over the current queue; the properties
proved here do not depend on the skipped-element artefact of mutating a slice
while ranging over it.
-/

namespace Elektron

/-- A pending task (`def.Task`): declared cpu/mem/watts triple, remaining
instance counter, host-name constraint and the per-power-class watts map. -/
structure Task where
  name : String
  cpu : ℚ
  ram : ℚ
  watts : ℚ
  instances : ℕ
  host : String
  classToWatts : List (String × ℚ)
deriving Repr, DecidableEq

/-- A resource offer, already aggregated by `OfferAgg`: cpu, mem and watts
scalars plus the hostname and the optional "class" attribute. -/
structure Offer where
  hostname : String
  cpu : ℚ
  ram : ℚ
  watts : ℚ
  nodeClass : Option String
deriving Repr, DecidableEq

/-- Resources accounted for one launched task instance on an offer.  The
`watts` field records the watts value the scheduler accounted for the
instance (for the class-map scheduler this is the class-map value). -/
structure LaunchedRes where
  cpu : ℚ
  ram : ℚ
  watts : ℚ
deriving Repr, DecidableEq

/-- Per-offer accumulator of the scheduling loops: the `totalWatts`,
`totalCPU`, `totalRAM` running sums and the `tasks` slice passed to
`LaunchTasks`. -/
structure PackState where
  totalWatts : ℚ
  totalCPU : ℚ
  totalRAM : ℚ
  launched : List LaunchedRes
deriving Repr, DecidableEq

def PackState.init : PackState := ⟨0, 0, 0, []⟩

def launchedCPU (l : List LaunchedRes) : ℚ := (l.map LaunchedRes.cpu).sum

def launchedRAM (l : List LaunchedRes) : ℚ := (l.map LaunchedRes.ram).sum

def launchedWatts (l : List LaunchedRes) : ℚ := (l.map LaunchedRes.watts).sum

/-- `DefaultFilter` of `mesosUtils.go`: refuse offers for 1 second. -/
def DefaultFilter : ℚ := 1

/-- `LongFilter` of `mesosUtils.go`: refuse offers for 1000 seconds. -/
def LongFilter : ℚ := 1000

/-- `strings.HasPrefix(s, pre)`, over the character lists of the strings. -/
def strHasPre (s pre : String) : Bool := pre.data.isPrefixOf s.data

/-- Host check shared by the schedulers: skip the task iff its `Host` field is
non-empty and is not a prefix of the offer's hostname
(`strings.HasPrefix(*offer.Hostname, task.Host)` guarded by `task.Host != ""`,
and `offerUtils.HostMismatch` used by `MaxGreedyMins`). -/
abbrev hostMismatch (offerHost taskHost : String) : Prop :=
  taskHost ≠ "" ∧ strHasPre offerHost taskHost = false

/-- The "class" node attribute read by `BPSWClassMapWatts.ResourceOffers`
(`nodeClass` stays `""` when the offer carries no such attribute). -/
def offerClass (o : Offer) : String := o.nodeClass.getD ""

/-- `task.ClassToWatts[nodeClass]` with Go map semantics: a missing key
yields the zero value `0.0`. -/
def classWatts (t : Task) (c : String) : ℚ := ((t.classToWatts.lookup c).getD 0)

/-- Fit test of the bin-packing loops (`binpacksortedwatts.go` line 165,
`bpswClassMapWatts.go` line 171): `(ignoreWatts || offerWatts >= totalWatts+w)
&& offerCpu >= totalCPU+cpu && offerRam >= totalRAM+ram`, where `w` is the
watts value the scheduler accounts for the task. -/
abbrev bpFits (ignoreWatts : Bool) (o : Offer) (st : PackState) (t : Task) (w : ℚ) : Prop :=
  (ignoreWatts = true ∨ st.totalWatts + w ≤ o.watts) ∧
    st.totalCPU + t.cpu ≤ o.cpu ∧ st.totalRAM + t.ram ≤ o.ram

/-- Inner `for *task.Instances > 0` loop of the bin-packing schedulers:
consume instances of one task while they keep fitting; returns the remaining
instance count and the updated accumulator. -/
def packInstances (ignoreWatts : Bool) (o : Offer) (t : Task) (w : ℚ) :
    ℕ → PackState → ℕ × PackState
  | 0, st => (0, st)
  | n + 1, st =>
    if bpFits ignoreWatts o st t w then
      packInstances ignoreWatts o t w n
        ⟨st.totalWatts + w, st.totalCPU + t.cpu, st.totalRAM + t.ram,
          st.launched ++ [⟨t.cpu, t.ram, w⟩]⟩
    else (n + 1, st)

/-- Outer task loop of the bin-packing schedulers for one offer, parameterised
by the watts value accounted per task (`task.Watts` for `BinPackSortedWatts`,
`task.ClassToWatts[nodeClass]` for `BPSWClassMapWatts`).  Returns the updated
pending queue (a task is removed when a launch brings its counter to `0`) and
the accumulator. -/
def packOffer (ignoreWatts : Bool) (o : Offer) (wOf : Task → ℚ) :
    List Task → PackState → List Task × PackState
  | [], st => ([], st)
  | t :: rest, st =>
    if hostMismatch o.hostname t.host then
      let r := packOffer ignoreWatts o wOf rest st
      (t :: r.1, r.2)
    else
      let p := packInstances ignoreWatts o t (wOf t) t.instances st
      let r := packOffer ignoreWatts o wOf rest p.2
      ((if p.1 = 0 ∧ 0 < t.instances then [] else [{ t with instances := p.1 }]) ++ r.1, r.2)

/-- One offer processed by `BinPackSortedWatts.ResourceOffers` (lines 147-193):
the accounted watts value is the task's own `Watts`. -/
def binPackOffer (ignoreWatts : Bool) (o : Offer) (tasks : List Task) :
    List Task × PackState :=
  packOffer ignoreWatts o (fun t => t.watts) tasks PackState.init

/-- One offer processed by `BPSWClassMapWatts.ResourceOffers` (lines 147-200):
the accounted watts value is `task.ClassToWatts[nodeClass]` (Go zero value `0`
when the class is absent from the task's map). -/
def bpswClassMapOffer (ignoreWatts : Bool) (o : Offer) (tasks : List Task) :
    List Task × PackState :=
  packOffer ignoreWatts o (fun t => classWatts t (offerClass o)) tasks PackState.init

/-- Modelled from the spec: `def.WattsToConsider` (package `def` is not among
the sources).  Per §4.1 of the spec: with class-map mode enabled and the offer
carrying a class present in the task's `class_to_watts`, that value is used; a
class absent from the task's map is an `UnknownPowerClass` error (`none`);
otherwise the task's `watts`. -/
def WattsToConsider (t : Task) (classMapWatts : Bool) (o : Offer) : Option ℚ :=
  if classMapWatts then
    match o.nodeClass with
    | some c => t.classToWatts.lookup c
    | none => some t.watts
  else some t.watts

/-- Fit test of `MaxGreedyMins.takeOffer` (lines 27-31): `cpus >= totalCPU +
task.CPU && mem >= totalRAM + task.RAM && (!wattsAsAResource || watts >=
totalWatts + wattsConsideration)`. -/
abbrev mgmFits (wattsAsAResource : Bool) (o : Offer) (st : PackState) (t : Task) (w : ℚ) : Prop :=
  st.totalCPU + t.cpu ≤ o.cpu ∧ st.totalRAM + t.ram ≤ o.ram ∧
    (wattsAsAResource = false ∨ st.totalWatts + w ≤ o.watts)

/-- Inner `for *task.Instances > 0` loop of `MaxGreedyMins.ConsumeOffers`
(lines 147-158), one `CheckFit` per iteration. -/
def mgmPackInstances (wattsAsAResource : Bool) (o : Offer) (t : Task) (w : ℚ) :
    ℕ → PackState → ℕ × PackState
  | 0, st => (0, st)
  | n + 1, st =>
    if mgmFits wattsAsAResource o st t w then
      mgmPackInstances wattsAsAResource o t w n
        ⟨st.totalWatts + w, st.totalCPU + t.cpu, st.totalRAM + t.ram,
          st.launched ++ [⟨t.cpu, t.ram, w⟩]⟩
    else (n + 1, st)

/-- First phase of `MaxGreedyMins.ConsumeOffers` (lines 108-131): scan the
queue back-to-front (the argument list is the reversed queue) and place one
instance of the first fitting task.  `WattsToConsider` is evaluated before the
host check, and an error aborts the process (`log.Fatal`, modelled as `none`).
A launch that brings the counter to zero removes the task (`*task.Instances--`
followed by the `<= 0` check in `CheckFit`). -/
def mgmHeavyPass (wattsAsAResource classMapWatts : Bool) (o : Offer) :
    List Task → PackState → Option (List Task × PackState)
  | [], st => some ([], st)
  | t :: rest, st =>
    match WattsToConsider t classMapWatts o with
    | none => none
    | some w =>
      if hostMismatch o.hostname t.host then
        (mgmHeavyPass wattsAsAResource classMapWatts o rest st).map fun r => (t :: r.1, r.2)
      else if mgmFits wattsAsAResource o st t w then
        some ((if t.instances ≤ 1 then [] else [{ t with instances := t.instances - 1 }]) ++ rest,
          ⟨st.totalWatts + w, st.totalCPU + t.cpu, st.totalRAM + t.ram,
            st.launched ++ [⟨t.cpu, t.ram, w⟩]⟩)
      else
        (mgmHeavyPass wattsAsAResource classMapWatts o rest st).map fun r => (t :: r.1, r.2)

/-- Second phase of `MaxGreedyMins.ConsumeOffers` (lines 134-159): walk the
queue front-to-back packing as many instances of each task as keep fitting.
`WattsToConsider` errors abort the process (`none`). -/
def mgmMinPass (wattsAsAResource classMapWatts : Bool) (o : Offer) :
    List Task → PackState → Option (List Task × PackState)
  | [], st => some ([], st)
  | t :: rest, st =>
    match WattsToConsider t classMapWatts o with
    | none => none
    | some w =>
      if hostMismatch o.hostname t.host then
        (mgmMinPass wattsAsAResource classMapWatts o rest st).map fun r => (t :: r.1, r.2)
      else
        let p := mgmPackInstances wattsAsAResource o t w t.instances st
        (mgmMinPass wattsAsAResource classMapWatts o rest p.2).map fun r =>
          ((if p.1 = 0 ∧ 0 < t.instances then [] else [{ t with instances := p.1 }]) ++ r.1, r.2)

/-- One offer processed by `MaxGreedyMins.ConsumeOffers` (lines 86-172):
heavy pass back-to-front, then packing pass front-to-back.  `none` models the
fatal `log.Fatal` on a `WattsToConsider` error. -/
def mgmConsumeOffer (wattsAsAResource classMapWatts : Bool) (o : Offer)
    (tasks : List Task) : Option (List Task × PackState) :=
  match mgmHeavyPass wattsAsAResource classMapWatts o tasks.reverse PackState.init with
  | none => none
  | some (revTasks, st) => mgmMinPass wattsAsAResource classMapWatts o revTasks.reverse st

/-- Fit test of `ProactiveClusterwideCapRanked.takeOffer` (lines 32-39): the
whole offer aggregate against the task's declared triple (watts always
checked). -/
abbrev rankedTakeOffer (o : Offer) (t : Task) : Prop :=
  t.cpu ≤ o.cpu ∧ t.ram ≤ o.ram ∧ t.watts ≤ o.watts

/-- Task scan of `ProactiveClusterwideCapRanked.ResourceOffers` (lines
302-349): walk the sorted queue, skip host mismatches
(`!strings.HasPrefix(*offer.Hostname, task.Host)`), and stop at the first
fitting task (`break // Offer taken, move on`). -/
def rankedFindTask (o : Offer) : List Task → Option Task
  | [] => none
  | t :: rest =>
    if strHasPre o.hostname t.host = false then rankedFindTask o rest
    else if rankedTakeOffer o t then some t
    else rankedFindTask o rest

/-- Task instances launched by `ProactiveClusterwideCapRanked` on one offer:
the singleton `[]*mesos.TaskInfo{s.newTask(offer, task)}` for the first
fitting task, or nothing. -/
def rankedLaunched (o : Offer) (tasks : List Task) : List Task :=
  match rankedFindTask o tasks with
  | some t => [t]
  | none => []

/-- Per-offer action of a scheduler towards the Mesos driver: `LaunchTasks`
with the accumulated task list, or `DeclineOffer`, each with a refusal filter
duration in seconds. -/
inductive OfferResponse where
  | launched (tasks : List LaunchedRes) (filterSeconds : ℚ)
  | declined (filterSeconds : ℚ)
deriving Repr, DecidableEq

/-- Scheduler state threaded through `BinPackSortedWatts.ResourceOffers`: the
pending queue and whether the `Shutdown` channel has been closed. -/
structure SchedState where
  tasks : List Task
  shutdownClosed : Bool
deriving Repr, DecidableEq

/-- One offer handled by `BinPackSortedWatts.ResourceOffers` (lines 134-206):
with `Shutdown` closed the offer is declined with `longFilter`; otherwise the
bin-packing loop runs, `Shutdown` is closed when a removal empties the queue,
and the offer is launched on (`defaultFilter`) iff any instance was taken. -/
def binPackHandleOffer (ignoreWatts : Bool) (st : SchedState) (o : Offer) :
    SchedState × OfferResponse :=
  if st.shutdownClosed then (st, .declined LongFilter)
  else
    (⟨(binPackOffer ignoreWatts o st.tasks).1,
        st.shutdownClosed ||
          (!st.tasks.isEmpty && (binPackOffer ignoreWatts o st.tasks).1.isEmpty)⟩,
      if (binPackOffer ignoreWatts o st.tasks).2.launched.isEmpty then .declined DefaultFilter
      else .launched (binPackOffer ignoreWatts o st.tasks).2.launched DefaultFilter)

/-- The offer batch loop of `BinPackSortedWatts.ResourceOffers`. -/
def binPackResourceOffers (ignoreWatts : Bool) :
    SchedState → List Offer → SchedState × List OfferResponse
  | st, [] => (st, [])
  | st, o :: os =>
    let r := binPackHandleOffer ignoreWatts st o
    let rest := binPackResourceOffers ignoreWatts r.1 os
    (rest.1, r.2 :: rest.2)

/-- A policy entry of the switching registry (`schedPoliciesToSwitch`): the
policy name and its declared task distribution (`GetInfo().taskDist`). -/
structure SchedPolicyInfo where
  spName : String
  taskDist : ℚ
deriving Repr, DecidableEq

def dummyPolicy : SchedPolicyInfo := ⟨"", 0⟩

/-- Modelled from the spec: the policy-name constant `bp` (defined in a
source file not among the sources); per §4.4 of the spec it names the
Bin-Packing policy. -/
def bp : String := "bin-packing"

/-- The binary search of `baseSchedPolicyState.nextPolicy` (lines 71-83):
`low`/`high` walk, `mid := (low+high)/2`, exact match breaks with the policy
name, otherwise the loop ends with `low == high+1` and name `""`. -/
def bsLoop (ps : List SchedPolicyInfo) (x : ℚ) : ℕ → ℕ → ℤ → String × ℕ × ℤ
  | 0, low, high => ("", low, high)
  | fuel + 1, low, high =>
    if (low : ℤ) ≤ high then
      let mid : ℕ := (low + high.toNat) / 2
      if x < (ps.getD mid dummyPolicy).taskDist then bsLoop ps x fuel low ((mid : ℤ) - 1)
      else if (ps.getD mid dummyPolicy).taskDist < x then bsLoop ps x fuel (mid + 1) high
      else ((ps.getD mid dummyPolicy).spName, low, high)
    else ("", low, high)

/-- The registry selection of `baseSchedPolicyState.nextPolicy` (lines 64-99):
clamp to the endpoints when out of range, otherwise binary-search; when no
exact match was found compare `lowDiff`/`highDiff` of the bracketing pair. -/
def nextPolicyChoose (ps : List SchedPolicyInfo) (x : ℚ) : String :=
  let first := ps.getD 0 dummyPolicy
  let last := ps.getD (ps.length - 1) dummyPolicy
  if x < first.taskDist then first.spName
  else if last.taskDist < x then last.spName
  else
    let r := bsLoop ps x (ps.length + 1) 0 ((ps.length : ℤ) - 1)
    if r.1 = "" then
      let lowDiff := (ps.getD r.2.1 dummyPolicy).taskDist - x
      let highDiff := x - (ps.getD r.2.2.toNat dummyPolicy).taskDist
      if highDiff < lowDiff then (ps.getD r.2.2.toNat dummyPolicy).spName
      else if lowDiff < highDiff then (ps.getD r.2.1 dummyPolicy).spName
      else (ps.getD r.2.2.toNat dummyPolicy).spName
    else r.1

/-- `baseSchedPolicyState.nextPolicy`: the classifier result
(`def.GetTaskDistributionInWindow`, modelled from the spec as a parameter:
`none` is the `SingleCluster` error) selects `bp` on error and the registry
search otherwise. -/
def nextPolicyName (distResult : Option ℚ) (ps : List SchedPolicyInfo) : String :=
  match distResult with
  | none => bp
  | some taskDist => nextPolicyChoose ps taskDist

/-- A powercap sysfs zone of the RAPL daemon: directory name and the value of
its `constraint_0_max_power_uw` file (unsigned microwatts). -/
structure Zone where
  name : String
  maxPower : ℕ
deriving Repr, DecidableEq

def raplPrefixCPU : String := "intel-rapl"

/-- `strings.Split` restricted to a single-character separator, over the
character list of the string. -/
def splitChars (sep : Char) : List Char → List (List Char)
  | [] => [[]]
  | c :: cs =>
    let r := splitChars sep cs
    if c = sep then [] :: r else (c :: r.headD []) :: r.tail

/-- `strings.Split(name, ":")`. -/
def splitColon (s : String) : List String := (splitChars ':' s.data).map String.mk

/-- Zone filter of `capNode`: `strings.Split(name, ":")` must have exactly two
fields (sub-zones `intel-rapl:X:Y` are ignored) and the first must be
`intel-rapl`. -/
def isMainRaplZone (name : String) : Bool :=
  let fields := splitColon name
  decide (fields.length = 2) && decide (fields.headD "" = raplPrefixCPU)

/-- The value written by `capNode` for one zone:
`uint64(math.Ceil(float64(maxPower) * (float64(percentage) / 100)))`,
modelled with exact rational arithmetic. -/
def zoneCap (maxPower : ℕ) (percentage : ℤ) : ℕ :=
  (⌈(maxPower : ℚ) * ((percentage : ℚ) / 100)⌉).toNat

/-- `capNode` of the RAPL daemon: reject percentages outside `(0, 100]`,
otherwise write the scaled limit to every main `intel-rapl:X` zone.  The
result lists the `(zone, value)` writes to `constraint_0_power_limit_uw`. -/
def capNode (zones : List Zone) (percentage : ℤ) : Except String (List (String × ℕ)) :=
  if percentage ≤ 0 ∨ 100 < percentage then
    .error ("cap percentage must be between (0, 100]: " ++ toString percentage)
  else
    .ok (zones.filterMap fun z =>
      if isMainRaplZone z.name then some (z.name, zoneCap z.maxPower percentage) else none)

/-- An HTTP response of the daemon: status code and body. -/
structure HttpResponse where
  status : ℕ
  body : String
deriving Repr, DecidableEq

/-- `powercapEndpoint` of `rapl-daemon/main.go`: a body that fails to parse
or a `capNode` error yields HTTP 400 and no writes; otherwise HTTP 200 with
the confirmation body and the zone writes. -/
def powercapEndpoint (zones : List Zone) (payload : Option ℤ) :
    HttpResponse × List (String × ℕ) :=
  match payload with
  | none => (⟨400, "error parsing payload"⟩, [])
  | some pct =>
    match capNode zones pct with
    | .error e => (⟨400, e⟩, [])
    | .ok writes => (⟨200, "capped node at " ++ toString pct ++ " percent"⟩, writes)

/-- `int(math.Floor(x + 0.5))`: rounding to the nearest integer as done in
`proactiveclusterwidecappingranked.go`. -/
def roundHalf (x : ℚ) : ℤ := ⌊x + 1 / 2⌋

/-- Recap state of `ProactiveClusterwideCapRanked`: the shared
`rankedRecapValue` and the `isRecapping` flag. -/
structure RecapState where
  recapValue : ℚ
  isRecapping : Bool
deriving Repr, DecidableEq

/-- The non-final terminal branch of
`ProactiveClusterwideCapRanked.StatusUpdate` (lines 383-406): on a successful
`CleverRecap` computation, recap iff the value rounded to the nearest integer
differs from the rounded previous recap value; a computation error leaves the
state unchanged. -/
def rankedStatusRecapStep (cleverRecapResult : Option ℚ) (st : RecapState) : RecapState :=
  match cleverRecapResult with
  | none => st
  | some tempCap =>
    if roundHalf tempCap ≠ roundHalf st.recapValue then
      { recapValue := tempCap, isRecapping := true }
    else { st with isRecapping := false }

/-- One firing of the recap ticker (`startRecapping`, lines 201-223): push the
rounded `rankedRecapValue` iff `isRecapping` and the value is positive. -/
def recapTickerPush (st : RecapState) : Option ℤ :=
  if st.isRecapping ∧ 0 < st.recapValue then some (roundHalf st.recapValue) else none

end Elektron

namespace Elektron

/-- Invariant of the per-offer accumulator: the running totals stay within the
offer's aggregates (watts only under `wOK`, the mode in which the scheduler
enforces the watts dimension), and the totals equal the summed resources of
the launched instances. -/
def PackInv (wOK : Prop) (o : Offer) (st : PackState) : Prop :=
  st.totalCPU ≤ o.cpu ∧ st.totalRAM ≤ o.ram ∧ (wOK → st.totalWatts ≤ o.watts) ∧
    launchedCPU st.launched = st.totalCPU ∧ launchedRAM st.launched = st.totalRAM ∧
    launchedWatts st.launched = st.totalWatts

lemma packInit_inv (wOK : Prop) (o : Offer) (hc : 0 ≤ o.cpu) (hr : 0 ≤ o.ram)
    (hw : 0 ≤ o.watts) : PackInv wOK o PackState.init := by
  refine ⟨hc, hr, fun _ => hw, ?_, ?_, ?_⟩ <;>
    simp [PackState.init, launchedCPU, launchedRAM, launchedWatts]

lemma launched_append (l : List LaunchedRes) (x : LaunchedRes) :
    launchedCPU (l ++ [x]) = launchedCPU l + x.cpu ∧
      launchedRAM (l ++ [x]) = launchedRAM l + x.ram ∧
      launchedWatts (l ++ [x]) = launchedWatts l + x.watts := by
  refine ⟨?_, ?_, ?_⟩ <;> simp [launchedCPU, launchedRAM, launchedWatts]

lemma packInstances_inv (ig : Bool) (o : Offer) (t : Task) (w : ℚ) :
    ∀ (n : ℕ) (st : PackState), PackInv (ig = false) o st →
      PackInv (ig = false) o (packInstances ig o t w n st).2 := by
  intro n
  induction n with
  | zero => intro st h; simpa [packInstances] using h
  | succ n ih =>
    intro st h
    rw [packInstances]
    by_cases hf : bpFits ig o st t w
    · rw [if_pos hf]
      refine ih _ ?_
      obtain ⟨hfw, hfc, hfr⟩ := hf
      obtain ⟨_, _, hw, hsc, hsr, hsw⟩ := h
      obtain ⟨ha, hb, hcw⟩ := launched_append st.launched ⟨t.cpu, t.ram, w⟩
      refine ⟨hfc, hfr, ?_, ?_, ?_, ?_⟩
      · intro hig
        rcases hfw with hig' | hbound
        · rw [hig] at hig'; cases hig'
        · exact hbound
      · rw [ha, hsc]
      · rw [hb, hsr]
      · rw [hcw, hsw]
    · rw [if_neg hf]; exact h

lemma packOffer_inv (ig : Bool) (o : Offer) (wOf : Task → ℚ) :
    ∀ (ts : List Task) (st : PackState), PackInv (ig = false) o st →
      PackInv (ig = false) o (packOffer ig o wOf ts st).2 := by
  intro ts
  induction ts with
  | nil => intro st h; simpa [packOffer] using h
  | cons t rest ih =>
    intro st h
    rw [packOffer]
    by_cases hh : hostMismatch o.hostname t.host
    · rw [if_pos hh]; exact ih st h
    · rw [if_neg hh]
      exact ih _ (packInstances_inv ig o t (wOf t) t.instances st h)

lemma mgmPackInstances_inv (wres : Bool) (o : Offer) (t : Task) (w : ℚ) :
    ∀ (n : ℕ) (st : PackState), PackInv (wres = true) o st →
      PackInv (wres = true) o (mgmPackInstances wres o t w n st).2 := by
  intro n
  induction n with
  | zero => intro st h; simpa [mgmPackInstances] using h
  | succ n ih =>
    intro st h
    rw [mgmPackInstances]
    by_cases hf : mgmFits wres o st t w
    · rw [if_pos hf]
      refine ih _ ?_
      obtain ⟨hfc, hfr, hfw⟩ := hf
      obtain ⟨_, _, hw, hsc, hsr, hsw⟩ := h
      obtain ⟨ha, hb, hcw⟩ := launched_append st.launched ⟨t.cpu, t.ram, w⟩
      refine ⟨hfc, hfr, ?_, ?_, ?_, ?_⟩
      · intro hwres
        rcases hfw with hwres' | hbound
        · rw [hwres] at hwres'; cases hwres'
        · exact hbound
      · rw [ha, hsc]
      · rw [hb, hsr]
      · rw [hcw, hsw]
    · rw [if_neg hf]; exact h

lemma mgmHeavyPass_inv (wres cmw : Bool) (o : Offer) :
    ∀ (ts : List Task) (st : PackState) (res : List Task × PackState),
      PackInv (wres = true) o st → mgmHeavyPass wres cmw o ts st = some res →
      PackInv (wres = true) o res.2 := by
  intro ts
  induction ts with
  | nil =>
    intro st res h hres
    simp only [mgmHeavyPass, Option.some_inj] at hres
    rw [← hres]; exact h
  | cons t rest ih =>
    intro st res h hres
    rw [mgmHeavyPass] at hres
    split at hres
    · exact Option.noConfusion hres
    case _ w hwc =>
      by_cases hh : hostMismatch o.hostname t.host
      · rw [if_pos hh] at hres
        rcases Option.map_eq_some'.mp hres with ⟨r, hrec, hres'⟩
        rw [← hres']
        exact ih st r h hrec
      · rw [if_neg hh] at hres
        by_cases hf : mgmFits wres o st t w
        · rw [if_pos hf] at hres
          simp only [Option.some_inj] at hres
          rw [← hres]
          obtain ⟨hfc, hfr, hfw⟩ := hf
          obtain ⟨_, _, hw, hsc, hsr, hsw⟩ := h
          obtain ⟨ha, hb, hcw⟩ := launched_append st.launched ⟨t.cpu, t.ram, w⟩
          refine ⟨hfc, hfr, ?_, ?_, ?_, ?_⟩
          · intro hwres
            rcases hfw with hwres' | hbound
            · rw [hwres] at hwres'; cases hwres'
            · exact hbound
          · rw [ha, hsc]
          · rw [hb, hsr]
          · rw [hcw, hsw]
        · rw [if_neg hf] at hres
          rcases Option.map_eq_some'.mp hres with ⟨r, hrec, hres'⟩
          rw [← hres']
          exact ih st r h hrec

lemma mgmMinPass_inv (wres cmw : Bool) (o : Offer) :
    ∀ (ts : List Task) (st : PackState) (res : List Task × PackState),
      PackInv (wres = true) o st → mgmMinPass wres cmw o ts st = some res →
      PackInv (wres = true) o res.2 := by
  intro ts
  induction ts with
  | nil =>
    intro st res h hres
    simp only [mgmMinPass, Option.some_inj] at hres
    rw [← hres]; exact h
  | cons t rest ih =>
    intro st res h hres
    rw [mgmMinPass] at hres
    split at hres
    · exact Option.noConfusion hres
    case _ w hwc =>
      by_cases hh : hostMismatch o.hostname t.host
      · rw [if_pos hh] at hres
        rcases Option.map_eq_some'.mp hres with ⟨r, hrec, hres'⟩
        rw [← hres']
        exact ih st r h hrec
      · rw [if_neg hh] at hres
        rcases Option.map_eq_some'.mp hres with ⟨r, hrec, hres'⟩
        rw [← hres']
        exact ih _ r (mgmPackInstances_inv wres o t w t.instances st h) hrec

lemma rankedFindTask_fits (o : Offer) :
    ∀ (ts : List Task) (t : Task), rankedFindTask o ts = some t → rankedTakeOffer o t := by
  intro ts
  induction ts with
  | nil => intro t h; cases h
  | cons t' rest ih =>
    intro t h
    rw [rankedFindTask] at h
    by_cases hh : strHasPre o.hostname t'.host = false
    · rw [if_pos hh] at h; exact ih t h
    · rw [if_neg hh] at h
      by_cases hf : rankedTakeOffer o t'
      · rw [if_pos hf] at h
        simp only [Option.some_inj] at h
        rw [← h]; exact hf
      · rw [if_neg hf] at h; exact ih t h

end Elektron

namespace Elektron

/-- The per-instance resource triple an offer is charged for a directly
launched task (`newTask` resources). -/
def taskRes (t : Task) : LaunchedRes := ⟨t.cpu, t.ram, t.watts⟩

/-- C1: For every policy and every offer in a batch, the sum of resources
(CPU, RAM, and watts when watts accounting is enabled) of the task instances
the policy launches on that offer never exceeds the offer's aggregate
resources in any dimension.  Stated for the four launching policies among the
sources: `BinPackSortedWatts`, `BPSWClassMapWatts`, `MaxGreedyMins` (when it
does not abort on a watts-lookup error) and `ProactiveClusterwideCapRanked`.
Watts accounting is enabled when `ignoreWatts = false` for the first two,
when `wattsAsAResource = true` for `MaxGreedyMins`, and always for the ranked
policy. -/
theorem offer_resource_sums_bounded (ig wres cmw : Bool) (o : Offer) (ts : List Task)
    (hc : 0 ≤ o.cpu) (hr : 0 ≤ o.ram) (hw : 0 ≤ o.watts) :
    (launchedCPU (binPackOffer ig o ts).2.launched ≤ o.cpu ∧
      launchedRAM (binPackOffer ig o ts).2.launched ≤ o.ram ∧
      (ig = false → launchedWatts (binPackOffer ig o ts).2.launched ≤ o.watts)) ∧
    (launchedCPU (bpswClassMapOffer ig o ts).2.launched ≤ o.cpu ∧
      launchedRAM (bpswClassMapOffer ig o ts).2.launched ≤ o.ram ∧
      (ig = false → launchedWatts (bpswClassMapOffer ig o ts).2.launched ≤ o.watts)) ∧
    (∀ res, mgmConsumeOffer wres cmw o ts = some res →
      launchedCPU res.2.launched ≤ o.cpu ∧ launchedRAM res.2.launched ≤ o.ram ∧
      (wres = true → launchedWatts res.2.launched ≤ o.watts)) ∧
    (launchedCPU ((rankedLaunched o ts).map taskRes) ≤ o.cpu ∧
      launchedRAM ((rankedLaunched o ts).map taskRes) ≤ o.ram ∧
      launchedWatts ((rankedLaunched o ts).map taskRes) ≤ o.watts) := by
  have hinit : PackInv (ig = false) o PackState.init := packInit_inv _ o hc hr hw
  have hinitW : PackInv (wres = true) o PackState.init := packInit_inv _ o hc hr hw
  refine ⟨?_, ?_, ?_, ?_⟩
  · obtain ⟨h1, h2, h3, h4, h5, h6⟩ :=
      packOffer_inv ig o (fun t => t.watts) ts PackState.init hinit
    exact ⟨h4 ▸ h1, h5 ▸ h2, fun hig => h6 ▸ h3 hig⟩
  · obtain ⟨h1, h2, h3, h4, h5, h6⟩ :=
      packOffer_inv ig o (fun t => classWatts t (offerClass o)) ts PackState.init hinit
    exact ⟨h4 ▸ h1, h5 ▸ h2, fun hig => h6 ▸ h3 hig⟩
  · intro res hres
    rw [mgmConsumeOffer] at hres
    split at hres
    · exact Option.noConfusion hres
    · rename_i revTasks pr hheavy
      obtain ⟨h1, h2, h3, h4, h5, h6⟩ :=
        mgmMinPass_inv wres cmw o revTasks.reverse pr res
          (mgmHeavyPass_inv wres cmw o ts.reverse PackState.init (revTasks, pr) hinitW hheavy)
          hres
      exact ⟨h4 ▸ h1, h5 ▸ h2, fun hwres => h6 ▸ h3 hwres⟩
  · rw [rankedLaunched]
    rcases hfind : rankedFindTask o ts with _ | t
    · simp [launchedCPU, launchedRAM, launchedWatts]
      exact ⟨hc, hr, hw⟩
    · obtain ⟨h1, h2, h3⟩ := rankedFindTask_fits o ts t hfind
      simp [launchedCPU, launchedRAM, launchedWatts, taskRes]
      exact ⟨h1, h2, h3⟩

/-- Witness for `offer_resource_sums_bounded`, at the spec's exact-fit
scenario (offer `{cpu 4, mem 8192, watts 80}`, task with the same demands). -/
theorem offer_resource_sums_bounded_witness :
    launchedCPU (binPackOffer false ⟨"node", 4, 8192, 80, none⟩
      [⟨"t", 4, 8192, 80, 1, "", []⟩]).2.launched ≤ (4 : ℚ) :=
  (offer_resource_sums_bounded false true false ⟨"node", 4, 8192, 80, none⟩
    [⟨"t", 4, 8192, 80, 1, "", []⟩] (by norm_num) (by norm_num) (by norm_num)).1.1

/-- C4: `BinPackSortedWatts` walks the queue front-to-back and greedily
consumes as many instances of each task as fit on the current offer: for the
offer `{cpu 10, mem 20000, watts 200}` and the single pending task
`{cpu 2, mem 4000, watts 40, instances 10}`, exactly 5 instances are launched
on the offer and 5 instances remain pending. -/
theorem binpack_offer_packs_five_instances :
    (binPackOffer false ⟨"host1", 10, 20000, 200, none⟩
        [⟨"t1", 2, 4000, 40, 10, "", []⟩]) =
      ([⟨"t1", 2, 4000, 40, 5, "", []⟩],
        ⟨200, 10, 20000,
          [⟨2, 4000, 40⟩, ⟨2, 4000, 40⟩, ⟨2, 4000, 40⟩, ⟨2, 4000, 40⟩, ⟨2, 4000, 40⟩]⟩) := by
  norm_num [binPackOffer, packOffer, packInstances, bpFits, PackState.init, hostMismatch,
    strHasPre]

/-- C9: `ProactiveClusterwideCapRanked.ResourceOffers` launches at most one
task instance per offer: the scan over the sorted pending queue is exactly a
first-fit search (`List.find?` on host match and `takeOffer`), stopped at the
first fitting task, and the launch list is at most a singleton. -/
theorem ranked_at_most_one_instance_per_offer (o : Offer) (ts : List Task) :
    (rankedLaunched o ts).length ≤ 1 ∧
      rankedFindTask o ts =
        ts.find? (fun t => strHasPre o.hostname t.host && decide (rankedTakeOffer o t)) := by
  constructor
  · rw [rankedLaunched]
    rcases rankedFindTask o ts with _ | t <;> simp
  · induction ts with
    | nil => simp [rankedFindTask]
    | cons t rest ih =>
      rw [rankedFindTask]
      by_cases hh : strHasPre o.hostname t.host = false
      · rw [if_pos hh]
        rw [List.find?_cons_of_neg _ (by simp [hh])]
        exact ih
      · rw [if_neg hh]
        rw [Bool.not_eq_false] at hh
        by_cases hf : rankedTakeOffer o t
        · rw [if_pos hf]
          rw [List.find?_cons_of_pos _ (by simp [hh, hf])]
        · rw [if_neg hf]
          rw [List.find?_cons_of_neg _ (by simp [hh, hf])]
          exact ih

/-- C7: when the task classifier reports `SingleCluster` (the error branch of
`GetTaskDistributionInWindow`), `nextPolicy` returns the `bp` (Bin-Packing)
policy name, regardless of the registry. -/
theorem nextPolicy_single_cluster_binpack (ps : List SchedPolicyInfo) :
    nextPolicyName none ps = bp ∧ bp = "bin-packing" := ⟨rfl, rfl⟩

end Elektron

namespace Elektron

/-- C8: once the pending queue empties the `Shutdown` channel is closed, and
every offer received afterwards is declined with the long filter (1000 s
refusal) instead of being considered: (a) with `Shutdown` closed the batch
loop declines every offer with `LongFilter` and leaves the state unchanged;
(b) an offer whose processing empties a non-empty queue closes `Shutdown`. -/
theorem shutdown_long_filter_decline :
    (∀ (ig : Bool) (st : SchedState) (offers : List Offer), st.shutdownClosed = true →
      binPackResourceOffers ig st offers =
        (st, offers.map fun _ => OfferResponse.declined LongFilter)) ∧
    (∀ (ig : Bool) (st : SchedState) (o : Offer), st.tasks ≠ [] →
      (binPackHandleOffer ig st o).1.tasks = [] →
      (binPackHandleOffer ig st o).1.shutdownClosed = true) := by
  constructor
  · intro ig st offers hshut
    induction offers with
    | nil => simp [binPackResourceOffers]
    | cons o os ih =>
      rw [binPackResourceOffers]
      unfold binPackHandleOffer
      rw [if_pos hshut]
      dsimp only
      rw [ih]
      simp
  · intro ig st o hne hempty
    unfold binPackHandleOffer at hempty ⊢
    by_cases hshut : st.shutdownClosed = true
    · rw [if_pos hshut] at hempty
      exact absurd hempty hne
    · rw [if_neg hshut] at hempty ⊢
      dsimp only at hempty ⊢
      simp [hempty, hne]

end Elektron

namespace Elektron

/-- Witness for `shutdown_long_filter_decline`: the spec's exact-fit scenario
closes `Shutdown`, and a batch arriving with `Shutdown` closed is declined
with the 1000 s filter. -/
theorem shutdown_long_filter_decline_witness :
    binPackResourceOffers false ⟨[], true⟩ [⟨"node", 4, 8192, 80, none⟩] =
      (⟨[], true⟩, [OfferResponse.declined LongFilter]) ∧
    (binPackHandleOffer false ⟨[⟨"t", 4, 8192, 80, 1, "", []⟩], false⟩
        ⟨"node", 4, 8192, 80, none⟩).1.shutdownClosed = true := by
  constructor
  · exact shutdown_long_filter_decline.1 false ⟨[], true⟩ [⟨"node", 4, 8192, 80, none⟩] rfl
  · refine shutdown_long_filter_decline.2 false ⟨[⟨"t", 4, 8192, 80, 1, "", []⟩], false⟩
      ⟨"node", 4, 8192, 80, none⟩ (by simp) ?_
    norm_num [binPackHandleOffer, binPackOffer, packOffer, packInstances, bpFits,
      PackState.init, hostMismatch, strHasPre]

/-- C10: on a terminal status update while other tasks still run, a
successful `CleverRecap` computation sets `isRecapping` to `true` iff the new
value rounded to the nearest integer differs from the rounded previous recap
value; when the rounded values are equal `isRecapping` is set to `false` and
the recap ticker pushes nothing. -/
theorem recap_iff_rounded_differs (tempCap : ℚ) (st : RecapState) :
    ((rankedStatusRecapStep (some tempCap) st).isRecapping = true ↔
      roundHalf tempCap ≠ roundHalf st.recapValue) ∧
    (roundHalf tempCap = roundHalf st.recapValue →
      (rankedStatusRecapStep (some tempCap) st).isRecapping = false ∧
      recapTickerPush (rankedStatusRecapStep (some tempCap) st) = none) := by
  unfold rankedStatusRecapStep
  dsimp only
  by_cases h : roundHalf tempCap ≠ roundHalf st.recapValue
  · rw [if_pos h]
    exact ⟨⟨fun _ => h, fun _ => rfl⟩, fun heq => absurd heq h⟩
  · rw [if_neg h]
    refine ⟨⟨fun hfalse => Bool.noConfusion hfalse, fun hne => absurd hne h⟩, fun _ => ⟨rfl, ?_⟩⟩
    unfold recapTickerPush
    simp

/-- Witness for `recap_iff_rounded_differs`: previous recap value `3.2`, new
computation `3`; both round to `3`, so `isRecapping` is cleared and the recap
ticker pushes nothing. -/
theorem recap_iff_rounded_differs_witness :
    (rankedStatusRecapStep (some 3) ⟨16 / 5, true⟩).isRecapping = false ∧
      recapTickerPush (rankedStatusRecapStep (some 3) ⟨16 / 5, true⟩) = none := by
  refine (recap_iff_rounded_differs 3 ⟨16 / 5, true⟩).2 ?_
  norm_num [roundHalf]

/-- C6: the powercap endpoint succeeds only for percentages in `(0, 100]`:
for every other percentage `capNode` returns an error and the endpoint
responds HTTP 400 with no zone written. -/
theorem capnode_invalid_percentage_rejected (zones : List Zone) (n : ℤ)
    (h : n ≤ 0 ∨ 100 < n) :
    capNode zones n = .error ("cap percentage must be between (0, 100]: " ++ toString n) ∧
      (powercapEndpoint zones (some n)).1.status = 400 ∧
      (powercapEndpoint zones (some n)).2 = [] := by
  have hcap : capNode zones n =
      .error ("cap percentage must be between (0, 100]: " ++ toString n) := by
    unfold capNode
    rw [if_pos h]
  refine ⟨hcap, ?_, ?_⟩ <;> simp [powercapEndpoint, hcap]

/-- Witness for `capnode_invalid_percentage_rejected` at percentage 101. -/
theorem capnode_invalid_percentage_rejected_witness :
    capNode [⟨"intel-rapl:0", 100⟩] 101 =
        .error ("cap percentage must be between (0, 100]: " ++ toString (101 : ℤ)) ∧
      (powercapEndpoint [⟨"intel-rapl:0", 100⟩] (some 101)).1.status = 400 ∧
      (powercapEndpoint [⟨"intel-rapl:0", 100⟩] (some 101)).2 = [] :=
  capnode_invalid_percentage_rejected [⟨"intel-rapl:0", 100⟩] 101 (by norm_num)

end Elektron

namespace Elektron

lemma ceil_div_hundred (a : ℕ) : ⌈(a : ℚ) / 100⌉ = (((a + 99) / 100 : ℕ) : ℤ) := by
  have hc1 := Int.le_ceil ((a : ℚ) / 100)
  have hc2 := Int.ceil_lt_add_one ((a : ℚ) / 100)
  set c := ⌈(a : ℚ) / 100⌉ with hcdef
  have h1 : (a : ℚ) ≤ (c : ℚ) * 100 := by
    rw [div_le_iff₀ (by norm_num : (0:ℚ) < 100)] at hc1
    exact hc1
  have h2 : ((c : ℚ) - 1) * 100 < (a : ℚ) := by
    rw [← lt_div_iff₀ (by norm_num : (0:ℚ) < 100)]
    linarith
  have h1' : (a : ℤ) ≤ c * 100 := by exact_mod_cast h1
  have h2' : (c - 1) * 100 < (a : ℤ) := by exact_mod_cast h2
  omega

lemma zoneCap_eq (m n : ℕ) : zoneCap m (n : ℤ) = (m * n + 99) / 100 := by
  unfold zoneCap
  have hcast : (m : ℚ) * ((n : ℤ) : ℚ) / 100 = ((m * n : ℕ) : ℚ) / 100 := by
    push_cast
    ring
  rw [mul_div_assoc] at hcast
  rw [hcast, ceil_div_hundred]
  omega

/-- C5: for every percentage in `[1, 100]` and every main RAPL zone whose
max-power file holds `M`, `capNode` writes exactly `⌈M · N / 100⌉` to that
zone's power-limit file (the written value, computed as
`uint64(math.Ceil(float64(M) * (float64(N)/100)))`, equals the ceiling of
`M·N/100`, which over the naturals is `(M·N + 99) / 100`). -/
theorem capnode_writes_ceil (zones : List Zone) (z : Zone) (n : ℕ)
    (hz : z ∈ zones) (hmain : isMainRaplZone z.name = true)
    (h1 : 1 ≤ n) (h100 : n ≤ 100) :
    ∃ ws, capNode zones (n : ℤ) = .ok ws ∧
      (z.name, (z.maxPower * n + 99) / 100) ∈ ws ∧
      ((((z.maxPower * n + 99) / 100 : ℕ) : ℤ) = ⌈((z.maxPower : ℚ) * (n : ℚ)) / 100⌉) := by
  have hguard : ¬((n : ℤ) ≤ 0 ∨ 100 < (n : ℤ)) := by
    push_neg
    refine ⟨?_, ?_⟩
    · exact_mod_cast (show 0 < n from h1)
    · exact_mod_cast h100
  have hcap : capNode zones (n : ℤ) =
      .ok (zones.filterMap fun z' =>
        if isMainRaplZone z'.name then some (z'.name, zoneCap z'.maxPower (n : ℤ))
        else none) := by
    unfold capNode
    rw [if_neg hguard]
  refine ⟨_, hcap, ?_, ?_⟩
  · apply List.mem_filterMap.mpr
    refine ⟨z, hz, ?_⟩
    rw [if_pos hmain, zoneCap_eq]
  · have hc : (z.maxPower : ℚ) * (n : ℚ) / 100 = ((z.maxPower * n : ℕ) : ℚ) / 100 := by
      push_cast
      ring
    rw [hc, ceil_div_hundred]

/-- Witness for `capnode_writes_ceil`: a single main zone with max power 100
capped at 42 percent is written the value 42. -/
theorem capnode_writes_ceil_witness :
    ∃ ws, capNode [⟨"intel-rapl:0", 100⟩] ((42 : ℕ) : ℤ) = .ok ws ∧
      ("intel-rapl:0", (100 * 42 + 99) / 100) ∈ ws ∧
      ((((100 * 42 + 99) / 100 : ℕ) : ℤ) = ⌈(((100 : ℕ) : ℚ) * ((42 : ℕ) : ℚ)) / 100⌉) :=
  capnode_writes_ceil [⟨"intel-rapl:0", 100⟩] ⟨"intel-rapl:0", 100⟩ 42
    (by simp) (by decide) (by norm_num) (by norm_num)

end Elektron

namespace Elektron

lemma mgmHeavyPass_fatal (wres cmw : Bool) (o : Offer) (u : Task) (rest : List Task)
    (st : PackState) (h : WattsToConsider u cmw o = none) :
    mgmHeavyPass wres cmw o (u :: rest) st = none := by
  rw [mgmHeavyPass, h]

/-- C3 (amended): when class-map watts mode is enabled and the offer's node
class has no entry in a task's `class_to_watts` mapping, the two class-map
code paths disagree: `MaxGreedyMins` fails fatally through `WattsToConsider`
(`UnknownPowerClass`, `log.Fatal`), while `BPSWClassMapWatts` reads the Go map
zero value and accounts the task at 0 watts, so it can schedule the task
instead of failing. -/
theorem classmap_missing_class_behavior :
    (∀ (wres : Bool) (o : Offer) (c : String) (t : Task) (ts : List Task),
      o.nodeClass = some c → (∀ t' ∈ t :: ts, t'.classToWatts.lookup c = none) →
      mgmConsumeOffer wres true o (t :: ts) = none) ∧
    (∀ (t : Task) (c : String), t.classToWatts.lookup c = none → classWatts t c = 0) := by
  constructor
  · intro wres o c t ts hcls hmiss
    rcases hrev : (t :: ts).reverse with _ | ⟨u, rest⟩
    · exact absurd (List.reverse_eq_nil_iff.mp hrev) (List.cons_ne_nil t ts)
    · have hu : u ∈ t :: ts := by
        rw [← List.mem_reverse, hrev]
        exact List.mem_cons_self u rest
      have hwc : WattsToConsider u true o = none := by
        rw [WattsToConsider, if_pos rfl, hcls]
        exact hmiss u hu
      rw [mgmConsumeOffer, hrev, mgmHeavyPass_fatal wres true o u rest PackState.init hwc]
  · intro t c h
    rw [classWatts, h]
    rfl

/-- Witness for `classmap_missing_class_behavior`: an offer of class `"B"`
and a single task mapping only class `"A"` make `MaxGreedyMins` abort. -/
theorem classmap_missing_class_behavior_witness :
    mgmConsumeOffer true true ⟨"hostX", 4, 1024, 100, some "B"⟩
      [⟨"tA", 1, 1, 50, 1, "", [("A", 50)]⟩] = none := by
  refine classmap_missing_class_behavior.1 true ⟨"hostX", 4, 1024, 100, some "B"⟩ "B"
    ⟨"tA", 1, 1, 50, 1, "", [("A", 50)]⟩ [] rfl ?_
  intro t' ht'
  rcases List.mem_singleton.mp ht' with rfl
  decide

/-- C3 counterexample: `BPSWClassMapWatts` does not fail on a missing class
entry — on an offer of class `"B"` with only 10 watts free, it schedules the
instance of a 50-watt task whose map only covers class `"A"` (the missing
class is accounted as 0 watts), removing it from the pending queue. -/
theorem bpsw_missing_class_schedules_counterexample :
    (bpswClassMapOffer false ⟨"hostX", 4, 1024, 10, some "B"⟩
        [⟨"tA", 1, 1, 50, 1, "", [("A", 50)]⟩]).2.launched.length = 1 ∧
      (bpswClassMapOffer false ⟨"hostX", 4, 1024, 10, some "B"⟩
        [⟨"tA", 1, 1, 50, 1, "", [("A", 50)]⟩]).1 = [] := by
  constructor <;>
    norm_num [bpswClassMapOffer, packOffer, packInstances, bpFits, PackState.init,
      hostMismatch, strHasPre, classWatts, offerClass, List.lookup,
      show ("B" == "A") = false from rfl]

end Elektron
namespace Elektron

lemma bsLoop_spec (ps : List SchedPolicyInfo) (x : ℚ)
    (hsorted : ∀ i j : ℕ, i < j → j < ps.length →
      (ps.getD i dummyPolicy).taskDist < (ps.getD j dummyPolicy).taskDist)
    (hnames : ∀ p ∈ ps, p.spName ≠ "") :
    ∀ (fuel : ℕ) (low : ℕ) (high : ℤ) (r : String × ℕ × ℤ),
      bsLoop ps x fuel low high = r →
      (high + 1 - (low : ℤ)).toNat < fuel →
      (low : ℤ) ≤ high + 1 →
      high < (ps.length : ℤ) →
      (∀ i : ℕ, i < low → (ps.getD i dummyPolicy).taskDist < x) →
      (∀ i : ℕ, high < (i : ℤ) → i < ps.length → x < (ps.getD i dummyPolicy).taskDist) →
      ((r.1 = "" →
          (r.2.1 : ℤ) = r.2.2 + 1 ∧ r.2.2 < (ps.length : ℤ) ∧
          (∀ i : ℕ, i < r.2.1 → (ps.getD i dummyPolicy).taskDist < x) ∧
          (∀ i : ℕ, r.2.2 < (i : ℤ) → i < ps.length →
            x < (ps.getD i dummyPolicy).taskDist)) ∧
        (r.1 ≠ "" →
          ∃ k : ℕ, k < ps.length ∧ (ps.getD k dummyPolicy).taskDist = x ∧
            r.1 = (ps.getD k dummyPolicy).spName)) := by
  intro fuel
  induction fuel with
  | zero =>
    intro low high r hr hfuel
    exact absurd hfuel (Nat.not_lt_zero _)
  | succ fuel ih =>
    intro low high r hr hfuel hlh hhb hlowInv hhighInv
    rw [bsLoop] at hr
    by_cases hcond : (low : ℤ) ≤ high
    · rw [if_pos hcond] at hr
      have hhge : (0 : ℤ) ≤ high := le_trans (by exact_mod_cast Nat.zero_le low) hcond
      have htn : (high.toNat : ℤ) = high := Int.toNat_of_nonneg hhge
      simp only at hr
      set mid : ℕ := (low + high.toNat) / 2 with hmiddef
      have hlmid : low ≤ mid := by omega
      have hmidh : mid ≤ high.toNat := by omega
      have hmidlen : mid < ps.length := by omega
      by_cases hx : x < (ps.getD mid dummyPolicy).taskDist
      · rw [if_pos hx] at hr
        refine ih low ((mid : ℤ) - 1) r hr (by omega) (by omega) (by omega) hlowInv ?_
        intro i hi hilen
        rcases eq_or_lt_of_le (show mid ≤ i by omega) with heq | hlt
        · rw [← heq]; exact hx
        · exact lt_trans hx (hsorted mid i hlt hilen)
      · rw [if_neg hx] at hr
        by_cases hx2 : (ps.getD mid dummyPolicy).taskDist < x
        · rw [if_pos hx2] at hr
          refine ih (mid + 1) high r hr (by omega) (by omega) hhb ?_ hhighInv
          intro i hi
          rcases eq_or_lt_of_le (show i ≤ mid by omega) with heq | hlt
          · rw [heq]; exact hx2
          · exact lt_trans (hsorted i mid hlt hmidlen) hx2
        · rw [if_neg hx2] at hr
          have heq : (ps.getD mid dummyPolicy).taskDist = x :=
            le_antisymm (not_lt.mp hx) (not_lt.mp hx2)
          have hmem : ps.getD mid dummyPolicy ∈ ps := by
            rw [List.getD_eq_getElem ps dummyPolicy hmidlen]
            exact List.getElem_mem _
          rw [← hr]
          refine ⟨fun h0 => absurd h0 (hnames _ hmem), fun _ => ⟨mid, hmidlen, heq, rfl⟩⟩
    · rw [if_neg hcond] at hr
      rw [← hr]
      refine ⟨fun _ => ⟨?_, hhb, hlowInv, hhighInv⟩, fun hne => absurd rfl hne⟩
      show (low : ℤ) = high + 1
      omega

end Elektron
namespace Elektron

/-- C2 (amended): in `nextPolicy`, a task distribution outside the range of
declared policy distributions clamps to the nearest endpoint policy, and when
the distribution is exactly equidistant between two adjacent declared
distributions the policy at the *lower* index (the smaller declared
distribution) is selected: the tie branch of the source returns
`schedPoliciesToSwitch[high].spName`, and after the search `high` is the
smaller bracketing index. -/
theorem nextPolicy_clamp_and_tie_lower (ps : List SchedPolicyInfo) (x : ℚ)
    (hne : ps ≠ [])
    (hsorted : ∀ i j : ℕ, i < j → j < ps.length →
      (ps.getD i dummyPolicy).taskDist < (ps.getD j dummyPolicy).taskDist)
    (hnames : ∀ p ∈ ps, p.spName ≠ "") :
    (x < (ps.getD 0 dummyPolicy).taskDist →
      nextPolicyChoose ps x = (ps.getD 0 dummyPolicy).spName) ∧
    ((ps.getD (ps.length - 1) dummyPolicy).taskDist < x →
      nextPolicyChoose ps x = (ps.getD (ps.length - 1) dummyPolicy).spName) ∧
    (∀ k : ℕ, k + 1 < ps.length →
      (ps.getD k dummyPolicy).taskDist < x → x < (ps.getD (k + 1) dummyPolicy).taskDist →
      x - (ps.getD k dummyPolicy).taskDist = (ps.getD (k + 1) dummyPolicy).taskDist - x →
      nextPolicyChoose ps x = (ps.getD k dummyPolicy).spName) := by
  have hlen : 0 < ps.length := List.length_pos.mpr hne
  refine ⟨?_, ?_, ?_⟩
  · intro h
    simp only [nextPolicyChoose]
    rw [if_pos h]
  · intro h
    have hd0 : (ps.getD 0 dummyPolicy).taskDist ≤
        (ps.getD (ps.length - 1) dummyPolicy).taskDist := by
      by_cases hl1 : ps.length = 1
      · rw [hl1]
      · exact le_of_lt (hsorted 0 (ps.length - 1) (by omega) (by omega))
    simp only [nextPolicyChoose]
    rw [if_neg (not_lt.mpr (le_trans hd0 h.le)), if_pos h]
  · intro k hk1 hklow hkhigh htie
    have hklen : k < ps.length := by omega
    have hxd0 : ¬ x < (ps.getD 0 dummyPolicy).taskDist := by
      push_neg
      rcases Nat.eq_zero_or_pos k with rfl | hkpos
      · exact hklow.le
      · exact (lt_trans (hsorted 0 k hkpos hklen) hklow).le
    have hxdl : ¬ (ps.getD (ps.length - 1) dummyPolicy).taskDist < x := by
      push_neg
      rcases eq_or_lt_of_le (show k + 1 ≤ ps.length - 1 by omega) with heq | hlt
      · rw [← heq]; exact hkhigh.le
      · exact (lt_trans hkhigh (hsorted (k + 1) (ps.length - 1) hlt (by omega))).le
    simp only [nextPolicyChoose]
    rw [if_neg hxd0, if_neg hxdl]
    rcases hr : bsLoop ps x (ps.length + 1) 0 ((ps.length : ℤ) - 1) with ⟨name, lo, hi⟩
    obtain ⟨hempty, hfound⟩ := bsLoop_spec ps x hsorted hnames (ps.length + 1) 0
      ((ps.length : ℤ) - 1) (name, lo, hi) hr (by omega) (by omega) (by omega)
      (fun i hi0 => absurd hi0 (Nat.not_lt_zero i))
      (by intro i hgt hlt; exfalso; omega)
    have hname : name = "" := by
      by_contra hname
      obtain ⟨k', hk'len, hk'eq, _⟩ := hfound hname
      rcases le_or_lt k' k with hle | hlt
      · rcases eq_or_lt_of_le hle with rfl | hlt2
        · exact absurd hk'eq (ne_of_lt hklow)
        · exact absurd hk'eq (ne_of_lt (lt_trans (hsorted k' k hlt2 hklen) hklow))
      · have hgt : x < (ps.getD k' dummyPolicy).taskDist := by
          rcases eq_or_lt_of_le (show k + 1 ≤ k' from hlt) with heq | hlt2
          · rw [← heq]; exact hkhigh
          · exact lt_trans hkhigh (hsorted (k + 1) k' hlt2 hk'len)
        exact absurd hk'eq.symm (ne_of_lt hgt)
    obtain ⟨hlohi, hhilen, hlowInv, hhighInv⟩ := hempty hname
    dsimp only at hlohi hhilen hlowInv hhighInv
    have hhik : hi = (k : ℤ) := by
      have h1 : (k : ℤ) ≤ hi := by
        by_contra hcon
        push_neg at hcon
        exact absurd (hhighInv k (by omega) hklen) (lt_asymm hklow)
      have h2 : lo ≤ k + 1 := by
        by_contra hcon
        push_neg at hcon
        exact absurd (hlowInv (k + 1) hcon) (lt_asymm hkhigh)
      omega
    have hlok : lo = k + 1 := by omega
    subst hname
    subst hhik
    subst hlok
    dsimp only
    rw [if_pos rfl]
    simp only [Int.toNat_natCast]
    rw [htie]
    rw [if_neg (lt_irrefl _), if_neg (lt_irrefl _)]

end Elektron
namespace Elektron

/-- C2 counterexample: registry `[("pA", 1), ("pB", 3)]`, window distribution
exactly `2` (equidistant between the two declared distributions).  The claim
says the policy at the higher index (`"pB"`, declared distribution 3) is
selected; the code selects `"pA"`. -/
theorem nextPolicy_tie_counterexample :
    nextPolicyChoose [⟨"pA", 1⟩, ⟨"pB", 3⟩] 2 = "pA" ∧ "pA" ≠ "pB" := by
  constructor
  · norm_num [nextPolicyChoose, bsLoop, dummyPolicy]
  · decide

/-- Witness for `nextPolicy_clamp_and_tie_lower`: at the two-policy registry
with declared distributions 1 and 3 and distribution 2, the lower-index
policy `"pA"` is selected. -/
theorem nextPolicy_clamp_and_tie_lower_witness :
    nextPolicyChoose [⟨"pA", 1⟩, ⟨"pB", 3⟩] 2 = "pA" := by
  refine (nextPolicy_clamp_and_tie_lower [⟨"pA", 1⟩, ⟨"pB", 3⟩] 2 (by simp) ?_ ?_).2.2 0
    (by norm_num) (by norm_num [dummyPolicy]) (by norm_num [dummyPolicy])
    (by norm_num [dummyPolicy])
  · intro i j hij hj
    simp only [List.length_cons, List.length_nil] at hj
    interval_cases j
    · omega
    · interval_cases i
      norm_num [dummyPolicy]
  · intro p hp
    simp only [List.mem_cons, List.mem_singleton] at hp
    rcases hp with rfl | rfl | hp
    · decide
    · decide
    · exact absurd hp (List.not_mem_nil p)

end Elektron
